import Mathlib

/-!
Verification development for the go-phpserialize repository: a shallow
embedding of the `php` value model (src/php/value.go, src/unnamed/part_000),
the encoder (src/encode.go) and the decoder (src/decode.go), together with
theorems settling the frozen claims about them.

Conventions of the embedding:
* Go byte slices and strings are `List Nat` (one entry per byte; all string
  literals used here are ASCII, so `Char.toNat` of each character is the byte).
* Go `int`/`int64` values are Lean `Int`; where Go's wrapping 64-bit
  arithmetic is observable it is made explicit through `wrap64`.
* Go functions that can `panic` with a recoverable `serializeErr` are
  modelled with `Except`; unrecovered runtime panics (slice-bounds,
  negative `make`, index-out-of-range) are a distinct `crash` outcome.
* `float64` payloads are carried abstractly (`GoFloat`): the three special
  values plus finite floats identified by their decimal literal; no claim
  below depends on float numerics beyond this.
-/

/-- Bytes of an ASCII string literal, one `Nat` per byte. -/
def bytes (s : String) : List Nat := s.data.map Char.toNat

/-- Decimal digit expansion helper (fuel-indexed so it is structural). -/
def natDigitsAux : Nat → Nat → List Nat
  | 0, _ => []
  | fuel+1, n => if n < 10 then [48 + n] else natDigitsAux fuel (n / 10) ++ [48 + n % 10]

/-- Decimal digits (as bytes) of a natural number, as Go's `%d` renders it. -/
def natDigits (n : Nat) : List Nat := natDigitsAux (n + 1) n

/-- Decimal rendering (as bytes) of an integer, as Go's `%d` renders an `int64`. -/
def intBytes (i : Int) : List Nat :=
  if i < 0 then 45 :: natDigits (-i).toNat else natDigits i.toNat

/-- Two's-complement wrap of an integer into the `int64` range, modelling
Go's wrapping signed 64-bit arithmetic. -/
def wrap64 (z : Int) : Int := (z + 2 ^ 63) % 2 ^ 64 - 2 ^ 63

/-- Visibility for a PHP class member (src/php/value.go `Visibility`);
`pub`, `prot`, `priv` stand for VisibilityPublic, VisibilityProtected,
VisibilityPrivate (the latter two words are Lean keywords). -/
inductive Visibility where
  | pub
  | prot
  | priv
deriving DecidableEq, Repr

/-- PHP value type tags (src/unnamed/part_000 `Type`).  The `TypeInvalid`
tag of the source marks the zero `Value` struct, which is not constructible
through any constructor, decoder output or encoder input modelled here, so
it is omitted. -/
inductive PType where
  | tNull
  | tBool
  | tInt
  | tFloat
  | tString
  | tArray
  | tObject
deriving DecidableEq, Repr

/-- Name table of `Type.String` (src/unnamed/part_000 `typeNames`). -/
def typeName : PType → List Nat
  | .tNull => bytes "null"
  | .tBool => bytes "bool"
  | .tInt => bytes "int"
  | .tFloat => bytes "float"
  | .tString => bytes "string"
  | .tArray => bytes "array"
  | .tObject => bytes "object"

/-- Abstract `float64`: NaN, the two infinities, or a finite float identified
by the decimal literal that renders/parses it.  (`math.NaN()`, `math.Inf`.) -/
inductive GoFloat where
  | nan
  | inf
  | negInf
  | finite (lit : List Nat)
deriving DecidableEq, Repr

/-- The `php.Value` tagged union (src/php/value.go `Value` with its payload
`i interface{}` resolved per tag).  An array element is a pair
(Index, Value) as in `ArrayElement`; an object field is
(Name, Visibility, Value) as in `ObjField`; an object carries its class
name as in `Obj`. -/
inductive PValue where
  | null
  | bool (b : Bool)
  | int (i : Int)
  | float (f : GoFloat)
  | str (s : List Nat)
  | array (els : List (PValue × PValue))
  | obj (name : List Nat) (fields : List (List Nat × Visibility × PValue))

/-- Tag of a value (src/php/value.go `Value.Type`). -/
def PValue.type : PValue → PType
  | .null => .tNull
  | .bool _ => .tBool
  | .int _ => .tInt
  | .float _ => .tFloat
  | .str _ => .tString
  | .array _ => .tArray
  | .obj _ _ => .tObject

/-- The `ValueError` raised by typed accessors (src/php/value.go):
the accessor's method name and the value's actual type. -/
structure ValueError where
  method : List Nat
  typ : PType
deriving DecidableEq, Repr

/-- Accessor `Value.Bool` (src/php/value.go): the underlying bool, or a
`ValueError` (in Go: a panic via `valueError`) on any other variant. -/
def valueBool : PValue → Except ValueError Bool
  | .bool b => .ok b
  | v => .error ⟨bytes "php.Value.Bool", v.type⟩

/-- Accessor `Value.Int` (src/php/value.go). -/
def valueInt : PValue → Except ValueError Int
  | .int i => .ok i
  | v => .error ⟨bytes "php.Value.Int", v.type⟩

/-- Accessor `Value.Float` (src/php/value.go). -/
def valueFloat : PValue → Except ValueError GoFloat
  | .float f => .ok f
  | v => .error ⟨bytes "php.Value.Float", v.type⟩

/-- Accessor `Value.Array` (src/php/value.go). -/
def valueArray : PValue → Except ValueError (List (PValue × PValue))
  | .array els => .ok els
  | v => .error ⟨bytes "php.Value.Array", v.type⟩

/-- Accessor `Value.Object` (src/php/value.go). -/
def valueObject : PValue → Except ValueError (List Nat × List (List Nat × Visibility × PValue))
  | .obj name fields => .ok (name, fields)
  | v => .error ⟨bytes "php.Value.Object", v.type⟩

/-- Accessor `Value.String` (src/php/value.go): never fails; the raw
content for a String, otherwise the placeholder form of the source. -/
def valueString : PValue → List Nat
  | .str s => s
  | v => bytes "<" ++ typeName v.type ++ bytes " value>"

/-- A `*php.Value` pointer as seen by `Value.Index`: an address (pointer
identity) together with the pointed-to content.  Distinct Go allocations
have distinct addresses even for structurally equal contents. -/
structure VRef where
  addr : Nat
  val : PValue

/-- Method `Value.Index` (src/php/value.go lines 99-106) on an array's
element list: Go compares `e.Index == index`, which for pointers is
address equality, and returns the first match's value, else nil (`none`). -/
def goIndex : List (VRef × PValue) → VRef → Option PValue
  | [], _ => none
  | e :: rest, k => if e.1.addr = k.addr then some e.2 else goIndex rest k

/-- The key-scan loop of `php.Append` (src/php/value.go lines 229-234):
starting from `next = 0`, every Int-keyed element with `next <= key`
raises `next` to `key + 1` (Go `int` arithmetic, hence wrapping). -/
def appendNextGo (els : List (PValue × PValue)) : Int :=
  els.foldl
    (fun next e =>
      match e.1 with
      | .int k => if next ≤ k then wrap64 (k + 1) else next
      | _ => next)
    0

/-- The element-append loop of `php.Append` (src/php/value.go lines
235-238): each appended value gets key `next`, then `next++` (wrapping). -/
def appendElemsGo : List (PValue × PValue) → Int → List PValue → List (PValue × PValue)
  | ls, _, [] => ls
  | ls, next, e :: rest => appendElemsGo (ls ++ [(.int next, e)]) (wrap64 (next + 1)) rest

/-- Function `php.Append` (src/php/value.go): `v.Array()` (panicking —
here erring — on a non-array), then the two loops above, rebuilt into a
fresh array value. -/
def goAppend (v : PValue) (es : List PValue) : Except ValueError PValue :=
  match valueArray v with
  | .error e => .error e
  | .ok ls => .ok (.array (appendElemsGo ls (appendNextGo ls) es))

/-- Constructor `php.Field` (src/php/value.go). -/
def goField (name : List Nat) (v : PValue) (vis : Visibility) : List Nat × Visibility × PValue :=
  (name, vis, v)

/-- Constructor `php.PubField` (src/php/value.go): routes to `Field` with
public visibility. -/
def goPubField (name : List Nat) (v : PValue) : List Nat × Visibility × PValue :=
  goField name v .pub

/-- Constructor `php.PrivField` (src/php/value.go line 277): the source
routes it to `Field(name, v, VisibilityPublic)`. -/
def goPrivField (name : List Nat) (v : PValue) : List Nat × Visibility × PValue :=
  goField name v .pub

/-- Constructor `php.ProtectedField` (src/php/value.go line 282): the
source routes it to `Field(name, v, VisibilityPublic)`. -/
def goProtectedField (name : List Nat) (v : PValue) : List Nat × Visibility × PValue :=
  goField name v .pub

/-- Method `Value.IsNil` (src/php/value.go lines 128-130): true for a nil
`*Value` (here `none`) and for the Null variant. -/
def isNilV : Option PValue → Bool
  | none => true
  | some w => w.type == PType.tNull

/-- Encoder output for nil values (src/encode.go `sNil`, `writeNil`). -/
def sNilBytes : List Nat := bytes "N;"

/-- Function `writeBool` (src/encode.go). -/
def writeBool (b : Bool) : List Nat := if b then bytes "b:1;" else bytes "b:0;"

/-- Function `writeInt` (src/encode.go): `i:%d;` of an `int64`. -/
def writeInt (i : Int) : List Nat := bytes "i:" ++ intBytes i ++ bytes ";"

/-- Function `writeUint` (src/encode.go): `i:%d;` of a `uint64`. -/
def writeUint (n : Nat) : List Nat := bytes "i:" ++ natDigits n ++ bytes ";"

/-- Function `writeFloat` (src/encode.go): the three special literals, else
`d:%v;` — for the abstract finite float this is its identifying literal. -/
def writeFloat : GoFloat → List Nat
  | .nan => bytes "d:NAN;"
  | .inf => bytes "d:INF;"
  | .negInf => bytes "d:-INF;"
  | .finite lit => bytes "d:" ++ lit ++ bytes ";"

/-- Function `writeString` (src/encode.go): `s:%d:"%s";` with the byte
length, raw bytes unescaped. -/
def writeStr (s : List Nat) : List Nat :=
  bytes "s:" ++ natDigits s.length ++ bytes ":" ++ [34] ++ s ++ [34] ++ bytes ";"

/-- Field-name mangling of `writePHPObject` (src/encode.go lines 258-266):
protected names get a `*` prefix, private names get
`\x00<objectName>\x00<fieldName>`, public names stay bare. -/
def mangleFieldName (oname : List Nat) (fname : List Nat) : Visibility → List Nat
  | .prot => 42 :: fname
  | .priv => 0 :: oname ++ 0 :: fname
  | .pub => fname

mutual

/-- Function `writePHPValue` (src/encode.go lines 223-244) restricted to a
non-nil `*php.Value` receiver: the `v.IsNil()` branch covers the Null
variant here (the nil-pointer half lives in `writePHPValueOpt`), then the
type switch dispatches to the per-variant writers.  The `default` panic
branch of the source is unreachable for the closed `PValue` union. -/
def writeV : PValue → List Nat
  | .null => sNilBytes
  | .bool b => writeBool b
  | .int i => writeInt i
  | .float f => writeFloat f
  | .str s => writeStr s
  | .array els =>
    bytes "a:" ++ natDigits els.length ++ bytes ":\x7b" ++ writeElems els ++ bytes "\x7d"
  | .obj name fields =>
    bytes "O:" ++ natDigits name.length ++ bytes ":" ++ [34] ++ name ++ [34] ++ bytes ":" ++
      natDigits fields.length ++ bytes ":\x7b" ++ writeFields name fields ++ bytes "\x7d"

/-- Element loop of `writePHPArray` (src/encode.go lines 248-251): each
stored element contributes its encoded Index then its encoded Value, in
the array's stored order. -/
def writeElems : List (PValue × PValue) → List Nat
  | [] => []
  | e :: rest => writeV e.1 ++ writeV e.2 ++ writeElems rest

/-- Field loop of `writePHPObject` (src/encode.go lines 257-269): each
field contributes its mangled name as an encoded string then its encoded
value, in declared order. -/
def writeFields : List Nat → List (List Nat × Visibility × PValue) → List Nat
  | _, [] => []
  | oname, f :: rest =>
    writeStr (mangleFieldName oname f.1 f.2.1) ++ writeV f.2.2 ++ writeFields oname rest

end

/-- Entry `writePHPValue` on a possibly nil `*php.Value` (src/encode.go
line 224: `v.IsNil()` is true for the nil pointer, producing `N;`). -/
def writePHPValueOpt : Option PValue → List Nat
  | none => sNilBytes
  | some v => writeV v

/-- A generic host map key as `writeMapKey`/`intVal` classify it
(src/encode.go): a signed integer, an unsigned integer, or a string.  The
kinds with no defined key encoding (the `UnsupportedMapKeyType` default)
are not needed by any claim and are omitted. -/
inductive MKey where
  | kint (i : Int)
  | kuint (n : Nat)
  | kstr (s : List Nat)
deriving DecidableEq, Repr

/-- A generic host map value, restricted to the scalar kinds of
`writeReflectValue` (src/encode.go lines 286-296) that the claims
exercise. -/
inductive RVal where
  | rvBool (b : Bool)
  | rvInt (i : Int)
  | rvUint (n : Nat)
  | rvStr (s : List Nat)
deriving DecidableEq, Repr

/-- Function `intVal` (src/encode.go lines 131-142): signed integers
coerce to their `int64` value, unsigned integers via Go's wrapping
`int64(uint64)` conversion, strings do not coerce. -/
def intVal : MKey → Option Int
  | .kint i => some i
  | .kuint n => some (wrap64 n)
  | .kstr _ => none

/-- Default string rendering `fmt.Sprint` of a map key (src/encode.go
line 157): decimal for integers, the raw bytes for a string. -/
def renderKey : MKey → List Nat
  | .kint i => intBytes i
  | .kuint n => natDigits n
  | .kstr s => s

/-- Byte-lexicographic strict comparison, Go's `<` on strings. -/
def lexLt : List Nat → List Nat → Bool
  | [], [] => false
  | [], _ :: _ => true
  | _ :: _, [] => false
  | a :: as, b :: bs => if a < b then true else if b < a then false else lexLt as bs

/-- The `less` closure of `sortKeys` (src/encode.go lines 145-158): both
coerce → numeric ascending; only the first coerces → first sorts first;
only the second coerces → second sorts first; neither → `fmt.Sprint`
renderings compared byte-lexicographically. -/
def keyLess (x y : MKey) : Bool :=
  match intVal x, intVal y with
  | some a, some b => a < b
  | some _, none => true
  | none, some _ => false
  | none, none => lexLt (renderKey x) (renderKey y)

/-- Ordering produced by `sort.Slice(keys, less)`: no inversion w.r.t.
`less` between an earlier and a later key. -/
def keyLe (x y : MKey) : Prop := keyLess y x = false

instance : DecidableRel keyLe := fun x y => by
  unfold keyLe; infer_instance

/-- Function `sortKeys` (src/encode.go lines 144-159).  `sort.Slice` with
a strict-weak `less` produces some permutation with no inversions;
insertion sort by `keyLe` is such a permutation (and the unique one when
no two keys tie, as for any Go map whose keys all differ under `less`). -/
def sortKeys (ks : List MKey) : List MKey := List.insertionSort keyLe ks

/-- Fragment of `writeReflectValue` (src/encode.go) for scalar host
values. -/
def writeRVal : RVal → List Nat
  | .rvBool b => writeBool b
  | .rvInt i => writeInt i
  | .rvUint n => writeUint n
  | .rvStr s => writeStr s

/-- Function `writeMapKey` (src/encode.go lines 172-185) on the supported
key kinds. -/
def writeMapKey : MKey → List Nat
  | .kint i => writeInt i
  | .kuint n => writeUint n
  | .kstr s => writeStr s

/-- Lookup modelling `v.MapIndex(k)` on the association-list view of a Go
map; total because `sortKeys` only permutes the map's own keys. -/
def lookupRV (kvs : List (MKey × RVal)) (k : MKey) : RVal :=
  (((kvs.find? fun e => e.1 == k).map Prod.snd).getD (.rvInt 0))

/-- Function `writeMap` (src/encode.go lines 161-170): header with the
entry count, then each key in `sortKeys` order followed by its value,
then the closing brace. -/
def writeMap (kvs : List (MKey × RVal)) : List Nat :=
  bytes "a:" ++ natDigits kvs.length ++ bytes ":\x7b" ++
    ((sortKeys (kvs.map Prod.fst)).map fun k => writeMapKey k ++ writeRVal (lookupRV kvs k)).flatten
    ++ bytes "\x7d"

/-- The structured decode errors, one constructor per `d.error` call site
of src/decode.go, carrying exactly the data that call formats (so a
constructor has a `pos` field precisely when the format string prints a
position). -/
inductive DErr where
  | cannotReadByte
  | unexpectedTokenAt (b : Nat) (pos : Nat)
  | unexpectedEOFWant (delim : Nat) (pos : Nat)
  | eofValueType (pos : Nat)
  | unexpectedValueToken (b : Nat) (pos : Nat)
  | trailingToken (b : Nat) (pos : Nat)
  | cannotConvertBool (bs : List Nat)
  | cannotConvertInt (bs : List Nat)
  | cannotConvertFloat (bs : List Nat)
  | eofStringBody (pos : Nat) (len : Int)
  | invalidArrayKeyType (t : PType)
  | invalidFieldName (name : List Nat)
deriving DecidableEq, Repr

/-- Whether the failure report of src/decode.go behind this constructor
includes a byte offset (its format string prints a `position:`/`from:`
argument). -/
def DErr.hasOffset : DErr → Bool
  | .cannotReadByte => false
  | .unexpectedTokenAt _ _ => true
  | .unexpectedEOFWant _ _ => true
  | .eofValueType _ => true
  | .unexpectedValueToken _ _ => true
  | .trailingToken _ _ => true
  | .cannotConvertBool _ => false
  | .cannotConvertInt _ => false
  | .cannotConvertFloat _ => false
  | .eofStringBody _ _ => true
  | .invalidArrayKeyType _ => false
  | .invalidFieldName _ => false

/-- Abnormal outcomes of a decode step: a `serializeErr` panic that
`unmarshal` recovers into an error (`err`), a Go runtime panic that it
re-raises (`crash`: slice-bounds on a negative string length, negative
`make` count, index-out-of-range on an empty field name), or exhaustion
of the recursion fuel of this embedding (`fuelOut`, an artifact of the
model; the fuel passed by `unmarshal` suffices for the inputs used in the
theorems below). -/
inductive DFail where
  | err (e : DErr)
  | crash
  | fuelOut
deriving DecidableEq, Repr

/-- First mismatching byte of the scanned region against the expected
pattern (the byte reported is the one found in the data, as in `got[i]`). -/
def firstDiff : List Nat → List Nat → Option Nat
  | [], _ => none
  | _, [] => none
  | p :: ps, g :: gs => if p ≠ g then some g else firstDiff ps gs

/-- Method `skipEq` (src/decode.go lines 57-73): EOF if the expected
literal does not fit (the `cannot read byte` error, which prints no
position), else the first mismatching byte is reported at position `end`
(the offset just past the expected literal), else the cursor advances. -/
def skipEq (data : List Nat) (off : Nat) (pat : List Nat) : Except DFail Nat :=
  if data.length < off + pat.length then .error (.err .cannotReadByte)
  else
    match firstDiff pat (data.drop off) with
    | some g => .error (.err (.unexpectedTokenAt g (off + pat.length)))
    | none => .ok (off + pat.length)

/-- Index of the first occurrence of a byte, as `bytes.IndexByte`. -/
def idxOfByte : List Nat → Nat → Option Nat
  | [], _ => none
  | b :: rest, d => if b = d then some 0 else (idxOfByte rest d).map (· + 1)

/-- Method `readBytes` (src/decode.go lines 75-86): the bytes strictly
before the first occurrence of the delimiter, cursor past the delimiter;
EOF error (with the starting position) when the delimiter is absent. -/
def readBytesD (data : List Nat) (off : Nat) (delim : Nat) : Except DFail (List Nat × Nat) :=
  match idxOfByte (data.drop off) delim with
  | none => .error (.err (.unexpectedEOFWant delim off))
  | some i => .ok ((data.drop off).take i, off + i + 1)

/-- Value of a non-empty all-decimal-digit byte sequence. -/
def digitsVal : List Nat → Option Nat
  | [] => none
  | [b] => if 48 ≤ b ∧ b ≤ 57 then some (b - 48) else none
  | b :: rest =>
    if 48 ≤ b ∧ b ≤ 57 then (digitsVal rest).map fun v => (b - 48) * 10 ^ rest.length + v
    else none

/-- Parse `strconv.Atoi` (base 10, bit size of `int` = 64): optional sign,
one or more digits, value must fit in `int64` (out-of-range is an error,
not a wrap). -/
def parseAtoi (bs : List Nat) : Option Int :=
  let signed : Bool × List Nat :=
    match bs with
    | 45 :: rest => (true, rest)
    | 43 :: rest => (false, rest)
    | rest => (false, rest)
  match digitsVal signed.2 with
  | none => none
  | some n =>
    let v : Int := if signed.1 then -(n : Int) else (n : Int)
    if v < -(2 ^ 63) ∨ 2 ^ 63 ≤ v then none else some v

/-- Method `readIntBody` (src/decode.go lines 140-148): bytes up to the
delimiter, converted by `strconv.Atoi`; the conversion error prints the
offending bytes but no position. -/
def readIntBody (data : List Nat) (off : Nat) (delim : Nat) : Except DFail (Int × Nat) :=
  match readBytesD data off delim with
  | .error e => .error e
  | .ok (bs, off2) =>
    match parseAtoi bs with
    | none => .error (.err (.cannotConvertInt bs))
    | some i => .ok (i, off2)

/-- Method `readStrBody` (src/decode.go lines 184-195): opening quote, the
length check (its EOF error prints the position), then the raw region —
Go slices `d.data[d.off:end]`, which panics when `length` is negative —
then the closing quote. -/
def readStrBody (data : List Nat) (off : Nat) (len : Int) : Except DFail (List Nat × Nat) :=
  match skipEq data off [34] with
  | .error e => .error e
  | .ok off1 =>
    if (data.length : Int) < (off1 : Int) + len then .error (.err (.eofStringBody off1 len))
    else if len < 0 then .error .crash
    else
      match skipEq data (off1 + len.toNat) [34] with
      | .error e => .error e
      | .ok off2 => .ok ((data.drop off1).take len.toNat, off2)

/-- Method `readStringLiteral` (src/decode.go lines 177-182): `s:`, the
byte length up to `:`, then the quoted body (no trailing `;` consumed). -/
def readStringLiteral (data : List Nat) (off : Nat) : Except DFail (List Nat × Nat) :=
  match skipEq data off (bytes "s:") with
  | .error e => .error e
  | .ok off1 =>
    match readIntBody data off1 58 with
    | .error e => .error e
    | .ok (l, off2) => readStrBody data off2 l

/-- Lower-casing of an ASCII byte, for `strconv.ParseFloat`'s
case-insensitive special forms. -/
def lowerByte (b : Nat) : Nat := if 65 ≤ b ∧ b ≤ 90 then b + 32 else b

/-- Syntax of a decimal `strconv.ParseFloat` mantissa with optional
exponent: digits with at most one dot (at least one digit overall),
optionally `e`/`E`, an optional sign and one or more exponent digits. -/
def decMantissaOk (bs : List Nat) : Bool :=
  let isDigit : Nat → Bool := fun b => 48 ≤ b && b ≤ 57
  let mant := bs.takeWhile fun b => isDigit b || b == 46
  let rest := bs.drop mant.length
  let digitCount := (mant.filter isDigit).length
  let dotCount := (mant.filter (· == 46)).length
  let mantOk := digitCount ≥ 1 && dotCount ≤ 1 && mant.length == digitCount + dotCount
  let expOk :=
    match rest with
    | [] => true
    | e :: tail =>
      (e == 101 || e == 69) &&
        (let tail2 := match tail with
          | 43 :: t => t
          | 45 :: t => t
          | t => t
        tail2.length ≥ 1 && tail2.all isDigit)
  mantOk && expOk

/-- Parse modelling `strconv.ParseFloat(s, 64)` as far as the claims need
it: an optional sign followed by a case-insensitive `inf`/`infinity`
(sign applies), a bare case-insensitive `nan`, or a decimal literal that
identifies a finite float.  Stdlib details with no bearing on any claim
(hexadecimal floats, underscore separators, overflow of huge decimal
literals to ±Inf with an out-of-range error) are not modelled. -/
def parseGoFloat (bs : List Nat) : Option GoFloat :=
  let signed : Bool × Bool × List Nat :=
    match bs with
    | 45 :: rest => (true, true, rest)
    | 43 :: rest => (true, false, rest)
    | rest => (false, false, rest)
  let low := signed.2.2.map lowerByte
  if low = bytes "inf" ∨ low = bytes "infinity" then
    some (if signed.2.1 then .negInf else .inf)
  else if ¬ signed.1 ∧ low = bytes "nan" then some .nan
  else if decMantissaOk signed.2.2 then some (.finite bs) else none

mutual

/-- Method `readValue` (src/decode.go lines 88-112): EOF check (printing
the position), then dispatch on the tag byte; an unknown tag is reported
with its position.  The first argument is the recursion fuel of the
embedding. -/
def readValue : Nat → List Nat → Nat → Except DFail (PValue × Nat)
  | 0, _, _ => .error .fuelOut
  | fuel+1, data, off =>
    if data.length ≤ off then .error (.err (.eofValueType off))
    else
      match data.getD off 0 with
      | 78 => readNil fuel data off
      | 98 => readBool fuel data off
      | 105 => readInt fuel data off
      | 115 => readString fuel data off
      | 100 => readFloat fuel data off
      | 97 => readArray fuel data off
      | 79 => readObject fuel data off
      | b => .error (.err (.unexpectedValueToken b off))
termination_by structural fuel => fuel


/-- Method `readNil` (src/decode.go lines 114-117). -/
def readNil : Nat → List Nat → Nat → Except DFail (PValue × Nat)
  | 0, _, _ => .error .fuelOut
  | _+1, data, off =>
    match skipEq data off (bytes "N;") with
    | .error e => .error e
    | .ok off1 => .ok (.null, off1)


/-- Method `readBool` (src/decode.go lines 119-133): body up to `;`;
`1` is true, anything other than `0` is the conversion error (which
prints the offending bytes but no position). -/
def readBool : Nat → List Nat → Nat → Except DFail (PValue × Nat)
  | 0, _, _ => .error .fuelOut
  | _+1, data, off =>
    match skipEq data off (bytes "b:") with
    | .error e => .error e
    | .ok off1 =>
      match readBytesD data off1 59 with
      | .error e => .error e
      | .ok (bs, off2) =>
        if bs = bytes "1" then .ok (.bool true, off2)
        else if bs ≠ bytes "0" then .error (.err (.cannotConvertBool bs))
        else .ok (.bool false, off2)


/-- Method `readInt` (src/decode.go lines 135-138). -/
def readInt : Nat → List Nat → Nat → Except DFail (PValue × Nat)
  | 0, _, _ => .error .fuelOut
  | _+1, data, off =>
    match skipEq data off (bytes "i:") with
    | .error e => .error e
    | .ok off1 =>
      match readIntBody data off1 59 with
      | .error e => .error e
      | .ok (i, off2) => .ok (.int i, off2)


/-- Method `readFloat` (src/decode.go lines 150-169): body up to `;`;
the literals `NAN`, `INF`, `-INF`, else `strconv.ParseFloat` whose
conversion error prints the offending bytes but no position. -/
def readFloat : Nat → List Nat → Nat → Except DFail (PValue × Nat)
  | 0, _, _ => .error .fuelOut
  | _+1, data, off =>
    match skipEq data off (bytes "d:") with
    | .error e => .error e
    | .ok off1 =>
      match readBytesD data off1 59 with
      | .error e => .error e
      | .ok (bs, off2) =>
        if bs = bytes "NAN" then .ok (.float .nan, off2)
        else if bs = bytes "INF" then .ok (.float .inf, off2)
        else if bs = bytes "-INF" then .ok (.float .negInf, off2)
        else
          match parseGoFloat bs with
          | none => .error (.err (.cannotConvertFloat bs))
          | some f => .ok (.float f, off2)


/-- Method `readString` (src/decode.go lines 171-175): a string literal
followed by `;`. -/
def readString : Nat → List Nat → Nat → Except DFail (PValue × Nat)
  | 0, _, _ => .error .fuelOut
  | _+1, data, off =>
    match readStringLiteral data off with
    | .error e => .error e
    | .ok (s, off1) =>
      match skipEq data off1 (bytes ";") with
      | .error e => .error e
      | .ok off2 => .ok (.str s, off2)


/-- Method `readArray` (src/decode.go lines 197-209): `a:`, the count up
to `:`, `{`, the elements (a negative count crashes Go's `make`), `}`. -/
def readArray : Nat → List Nat → Nat → Except DFail (PValue × Nat)
  | 0, _, _ => .error .fuelOut
  | fuel+1, data, off =>
    match skipEq data off (bytes "a:") with
    | .error e => .error e
    | .ok off1 =>
      match readIntBody data off1 58 with
      | .error e => .error e
      | .ok (l, off2) =>
        match skipEq data off2 (bytes "\x7b") with
        | .error e => .error e
        | .ok off3 =>
          if l < 0 then .error .crash
          else
            match readElems fuel l.toNat data off3 with
            | .error e => .error e
            | .ok (els, off4) =>
              match skipEq data off4 (bytes "\x7d") with
              | .error e => .error e
              | .ok off5 => .ok (.array els, off5)
termination_by structural fuel => fuel


/-- The element loop of `readArray`: a key then a value per element. -/
def readElems : Nat → Nat → List Nat → Nat → Except DFail (List (PValue × PValue) × Nat)
  | 0, _, _, _ => .error .fuelOut
  | _+1, 0, _, off => .ok ([], off)
  | fuel+1, n+1, data, off =>
    match readKey fuel data off with
    | .error e => .error e
    | .ok (k, off1) =>
      match readValue fuel data off1 with
      | .error e => .error e
      | .ok (v, off2) =>
        match readElems fuel n data off2 with
        | .error e => .error e
        | .ok (rest, off3) => .ok ((k, v) :: rest, off3)
termination_by structural fuel => fuel


/-- Method `readKey` (src/decode.go lines 211-220): a parsed value whose
type must be Int or String; any other type is the invalid-array-key-type
error (printing no position). -/
def readKey : Nat → List Nat → Nat → Except DFail (PValue × Nat)
  | 0, _, _ => .error .fuelOut
  | fuel+1, data, off =>
    match readValue fuel data off with
    | .error e => .error e
    | .ok (v, off1) =>
      match v.type with
      | .tInt => .ok (v, off1)
      | .tString => .ok (v, off1)
      | t => .error (.err (.invalidArrayKeyType t))
termination_by structural fuel => fuel


/-- Method `readObject` (src/decode.go lines 222-249), faithfully
including its asymmetries against the encoder: after the field count it
consumes no `{`, reads each field name as a bare string literal (no
trailing `;`), and consumes no closing `}`. -/
def readObject : Nat → List Nat → Nat → Except DFail (PValue × Nat)
  | 0, _, _ => .error .fuelOut
  | fuel+1, data, off =>
    match skipEq data off (bytes "O:") with
    | .error e => .error e
    | .ok off1 =>
      match readIntBody data off1 58 with
      | .error e => .error e
      | .ok (nameLen, off2) =>
        match readStrBody data off2 nameLen with
        | .error e => .error e
        | .ok (name, off3) =>
          match skipEq data off3 (bytes ":") with
          | .error e => .error e
          | .ok off4 =>
            match readIntBody data off4 58 with
            | .error e => .error e
            | .ok (l, off5) =>
              if l < 0 then .error .crash
              else
                match readFields fuel l.toNat data off5 with
                | .error e => .error e
                | .ok (fields, off6) => .ok (.obj name fields, off6)
termination_by structural fuel => fuel


/-- The field loop of `readObject` (src/decode.go lines 230-246): the name
comes from a bare string literal; a leading `*` marks Protected (marker
stripped), a leading NUL marks Private (fatal `invalid field name` — with
no position — when the second NUL is missing, else both NUL-delimited
segments are dropped); `name[0]` on an empty name is a Go index panic. -/
def readFields : Nat → Nat → List Nat → Nat → Except DFail (List (List Nat × Visibility × PValue) × Nat)
  | 0, _, _, _ => .error .fuelOut
  | _+1, 0, _, off => .ok ([], off)
  | fuel+1, n+1, data, off =>
    match readStringLiteral data off with
    | .error e => .error e
    | .ok (rawName, off1) =>
      match rawName with
      | [] => .error .crash
      | b :: restName =>
        let parsed : Except DFail (List Nat × Visibility) :=
          if b = 42 then .ok (restName, .prot)
          else if b = 0 then
            match idxOfByte restName 0 with
            | none => .error (.err (.invalidFieldName rawName))
            | some i => .ok (rawName.drop (i + 2), .priv)
          else .ok (rawName, .pub)
        match parsed with
        | .error e => .error e
        | .ok (fname, vis) =>
          match readValue fuel data off1 with
          | .error e => .error e
          | .ok (v, off2) =>
            match readFields fuel n data off2 with
            | .error e => .error e
            | .ok (rest, off3) => .ok ((fname, vis, v) :: rest, off3)
termination_by structural fuel => fuel

end

/-- Result of `Unmarshal` (src/decode.go lines 14-18 and 35-51): the named
returns `(v, err)` — on a recovered `serializeErr` the error is returned
together with whatever `v` already holds (nil before `readValue`
completes, the parsed value at the trailing-data check) — or a re-raised
runtime panic (`panicked`), or fuel exhaustion of the embedding
(`outOfFuel`). -/
inductive URes where
  | ret (v : Option PValue) (err : Option DErr)
  | panicked
  | outOfFuel

/-- Function `unmarshal` (src/decode.go lines 35-51): parse one value; if
the cursor is not at EOF afterwards, raise the trailing-data error — `v`
keeps the parsed value in that case because the panic happens after the
assignment to the named return. -/
def unmarshal (data : List Nat) : URes :=
  match readValue (data.length + 2) data 0 with
  | .error (.err e) => .ret none (some e)
  | .error .crash => .panicked
  | .error .fuelOut => .outOfFuel
  | .ok (v, off) =>
    if data.length ≤ off then .ret (some v) none
    else .ret (some v) (some (.trailingToken (data.getD off 0) off))

/-- Integer key of an array element's index value, if it has one. -/
def intKeyOf : PValue → Option Int
  | .int k => some k
  | _ => none

/-- Starting key named by the append claim: `1 + max(existing integer
keys, -1)`, the max taken over the Int-keyed entries. -/
def claimStartKey (els : List (PValue × PValue)) : Int :=
  1 + els.foldl
    (fun m e =>
      match intKeyOf e.1 with
      | some k => max m k
      | none => m)
    (-1)

/-- Entries carrying consecutive (unwrapped) integer keys from `start`,
as the append claim describes the appended values. -/
def consecutiveEntries : Int → List PValue → List (PValue × PValue)
  | _, [] => []
  | start, e :: rest => (.int start, e) :: consecutiveEntries (start + 1) rest

/-- Ordering the map-key claim asserts between an earlier and a later
emitted key: both coercible → numerically ascending; a non-coercible key
never precedes a coercible one; both non-coercible → default renderings
byte-lexicographically non-decreasing. -/
def keyOrdered (x y : MKey) : Prop :=
  match intVal x, intVal y with
  | some a, some b => a ≤ b
  | some _, none => True
  | none, some _ => False
  | none, none => lexLt (renderKey x) (renderKey y) = true ∨ renderKey x = renderKey y

/-- The concrete mapping of the map-key-ordering claim,
`a[\x22a\x22]=0, a[0]=1, a[\x22bb\x22]=2, a[3]=3, a[11]=4`. -/
def mapExample : List (MKey × RVal) :=
  [(.kstr (bytes "a"), .rvInt 0), (.kint 0, .rvInt 1), (.kstr (bytes "bb"), .rvInt 2),
   (.kint 3, .rvInt 3), (.kint 11, .rvInt 4)]

/-- A list is never lexicographically below itself. -/
theorem lexLt_irrefl : ∀ a : List Nat, lexLt a a = false := by
  intro a
  induction a with
  | nil => rfl
  | cons x xs ih => simp [lexLt, ih]

/-- Byte-lexicographic strict comparison is asymmetric. -/
theorem lexLt_asymm : ∀ a b : List Nat, lexLt a b = true → lexLt b a = false := by
  intro a
  induction a with
  | nil => intro b h; cases b <;> simp_all [lexLt]
  | cons x xs ih =>
    intro b h
    cases b with
    | nil => simp_all [lexLt]
    | cons y ys =>
      rcases Nat.lt_trichotomy x y with hlt | heq | hgt
      · simp [lexLt, hlt, show ¬ y < x from by omega]
      · subst heq
        simp only [lexLt, lt_irrefl, if_false] at h ⊢
        exact ih ys h
      · simp [lexLt, hgt, show ¬ x < y from by omega] at h

/-- Byte-lexicographic strict comparison is transitive. -/
theorem lexLt_trans : ∀ a b c : List Nat,
    lexLt a b = true → lexLt b c = true → lexLt a c = true := by
  intro a
  induction a with
  | nil =>
    intro b c h1 h2
    cases b <;> cases c <;> simp_all [lexLt]
  | cons x xs ih =>
    intro b c h1 h2
    cases b with
    | nil => simp_all [lexLt]
    | cons y ys =>
      cases c with
      | nil => simp_all [lexLt]
      | cons z zs =>
        rcases Nat.lt_trichotomy x y with hxy | hxy | hxy
        · rcases Nat.lt_trichotomy y z with hyz | hyz | hyz
          · simp [lexLt, show x < z from by omega]
          · subst hyz; simp [lexLt, hxy]
          · simp [lexLt, hyz, show ¬ y < z from by omega] at h2
        · subst hxy
          rcases Nat.lt_trichotomy x z with hxz | hxz | hxz
          · simp [lexLt, hxz]
          · subst hxz
            simp only [lexLt, lt_irrefl, if_false] at h1 h2 ⊢
            exact ih ys zs h1 h2
          · simp [lexLt, hxz, show ¬ x < z from by omega] at h2
        · simp [lexLt, hxy, show ¬ x < y from by omega] at h1

/-- Byte-lexicographic strict comparison is connex: two lists are
comparable or equal. -/
theorem lexLt_connex : ∀ a b : List Nat, lexLt a b = true ∨ a = b ∨ lexLt b a = true := by
  intro a
  induction a with
  | nil => intro b; cases b <;> simp [lexLt]
  | cons x xs ih =>
    intro b
    cases b with
    | nil => simp [lexLt]
    | cons y ys =>
      rcases Nat.lt_trichotomy x y with h | h | h
      · left; simp [lexLt, h]
      · subst h
        rcases ih ys with h2 | h2 | h2
        · left; simp [lexLt, h2]
        · right; left; simp [h2]
        · right; right; simp [lexLt, h2]
      · right; right; simp [lexLt, h]

/-- The no-inversion relation of `sortKeys` is total. -/
theorem keyLe_total : ∀ x y : MKey, keyLe x y ∨ keyLe y x := by
  intro x y
  unfold keyLe keyLess
  cases hx : intVal x <;> cases hy : intVal y <;> simp only [hx, hy]
  · rcases lexLt_connex (renderKey x) (renderKey y) with h | h | h
    · left; exact lexLt_asymm _ _ h
    · left; rw [h, lexLt_irrefl]
    · right; exact lexLt_asymm _ _ h
  · simp
  · simp
  · simp only [decide_eq_false_iff_not]
    omega

/-- The no-inversion relation of `sortKeys` is transitive (stated on the
underlying `keyLess`). -/
theorem keyLe_trans : ∀ x y z : MKey,
    keyLess y x = false → keyLess z y = false → keyLess z x = false := by
  intro x y z h1 h2
  unfold keyLess at h1 h2 ⊢
  cases hx : intVal x <;> cases hy : intVal y <;> cases hz : intVal z <;>
    simp only [hx, hy, hz] at h1 h2 ⊢
  · rcases lexLt_connex (renderKey x) (renderKey y) with h | h | h
    · by_contra hc
      simp only [Bool.not_eq_false] at hc
      have := lexLt_trans _ _ _ hc h
      rw [this] at h2
      exact Bool.noConfusion h2
    · rw [← h] at h2
      exact h2
    · rw [h1] at h
      exact Bool.noConfusion h
  all_goals
    first
    | rfl
    | exact Bool.noConfusion h1
    | exact Bool.noConfusion h2
    | (simp only [decide_eq_false_iff_not] at h1 h2 ⊢; omega)

instance : IsTotal MKey keyLe := ⟨keyLe_total⟩

instance : IsTrans MKey keyLe := ⟨fun a b c h1 h2 => keyLe_trans a b c h1 h2⟩

/-- Absence of a `less`-inversion between two keys yields the ordering the
map-key claim describes. -/
theorem keyOrdered_of_keyLe : ∀ x y : MKey, keyLe x y → keyOrdered x y := by
  intro x y h
  unfold keyLe keyLess at h
  unfold keyOrdered
  cases hx : intVal x <;> cases hy : intVal y <;> simp only [hx, hy] at h ⊢
  · rcases lexLt_connex (renderKey x) (renderKey y) with h2 | h2 | h2
    · left; exact h2
    · right; exact h2
    · rw [h2] at h
      exact Bool.noConfusion h
  · exact Bool.noConfusion h
  · simp only [decide_eq_false_iff_not] at h
    omega

/-- The encoded element block of an array is the concatenation of each
stored element's encoded key and value, in stored order. -/
theorem writeElems_eq_flatten :
    ∀ els : List (PValue × PValue),
      writeElems els = (els.map fun e => writeV e.1 ++ writeV e.2).flatten := by
  intro els
  induction els with
  | nil => simp [writeElems]
  | cons e rest ih => simp [writeElems, ih]

/-- Wrapping is the identity inside the `int64` range. -/
theorem wrap64_eq_self (z : Int) (h1 : -(2 ^ 63) ≤ z) (h2 : z < 2 ^ 63) : wrap64 z = z := by
  unfold wrap64
  have : (z + 2 ^ 63) % 2 ^ 64 = z + 2 ^ 63 := Int.emod_eq_of_lt (by omega) (by omega)
  omega

/-- With all integer keys safely inside the `int64` range, the next-key
scan of `Append` computes a running maximum of `key + 1`. -/
theorem appendNext_fold_max :
    ∀ (els : List (PValue × PValue)) (acc : Int),
      (∀ e ∈ els, ∀ k, intKeyOf e.1 = some k → -(2 ^ 63) ≤ k ∧ k + 1 < 2 ^ 63) →
      els.foldl
          (fun next e =>
            match e.1 with
            | .int k => if next ≤ k then wrap64 (k + 1) else next
            | _ => next)
          acc =
        els.foldl
          (fun m e =>
            match intKeyOf e.1 with
            | some k => max m (k + 1)
            | none => m)
          acc := by
  intro els
  induction els with
  | nil => intro acc h; rfl
  | cons e rest ih =>
    intro acc h
    have he := h e (List.mem_cons_self e rest)
    have hrest : ∀ e2 ∈ rest, ∀ k, intKeyOf e2.1 = some k → -(2 ^ 63) ≤ k ∧ k + 1 < 2 ^ 63 :=
      fun e2 h2 => h e2 (List.mem_cons_of_mem e h2)
    cases hk : e.1 with
    | int k =>
      have hb := he k (by rw [hk]; rfl)
      have hw : wrap64 (k + 1) = k + 1 := wrap64_eq_self _ (by omega) (by omega)
      simp only [List.foldl_cons, hk, intKeyOf, hw]
      rw [show (if acc ≤ k then k + 1 else acc) = max acc (k + 1) from by omega]
      exact ih _ hrest
    | null => simp only [List.foldl_cons, hk, intKeyOf]; exact ih _ hrest
    | bool b => simp only [List.foldl_cons, hk, intKeyOf]; exact ih _ hrest
    | float f => simp only [List.foldl_cons, hk, intKeyOf]; exact ih _ hrest
    | str s => simp only [List.foldl_cons, hk, intKeyOf]; exact ih _ hrest
    | array a => simp only [List.foldl_cons, hk, intKeyOf]; exact ih _ hrest
    | obj n f => simp only [List.foldl_cons, hk, intKeyOf]; exact ih _ hrest

/-- Folding the maximum of `key + 1` from `a + 1` is one more than
folding the maximum of `key` from `a`. -/
theorem maxFold_shift :
    ∀ (els : List (PValue × PValue)) (a : Int),
      els.foldl
          (fun m e =>
            match intKeyOf e.1 with
            | some k => max m (k + 1)
            | none => m)
          (a + 1) =
        1 + els.foldl
          (fun m e =>
            match intKeyOf e.1 with
            | some k => max m k
            | none => m)
          a := by
  intro els
  induction els with
  | nil => intro a; simp only [List.foldl_nil]; omega
  | cons e rest ih =>
    intro a
    cases hk : intKeyOf e.1 with
    | some k =>
      simp only [List.foldl_cons, hk]
      rw [show max (a + 1) (k + 1) = (max a k) + 1 from by omega]
      exact ih (max a k)
    | none => simp only [List.foldl_cons, hk]; exact ih a

/-- The max-of-keys fold never goes below its start. -/
theorem maxFold_ge :
    ∀ (els : List (PValue × PValue)) (a : Int),
      a ≤ els.foldl
        (fun m e =>
          match intKeyOf e.1 with
          | some k => max m k
          | none => m)
        a := by
  intro els
  induction els with
  | nil => intro a; exact le_refl a
  | cons e rest ih =>
    intro a
    cases hk : intKeyOf e.1 with
    | some k =>
      simp only [List.foldl_cons, hk]
      exact le_trans (le_max_left a k) (ih (max a k))
    | none => simp only [List.foldl_cons, hk]; exact ih a

/-- Under the no-overflow bound, the next-key scan of `Append` computes
exactly `1 + max(existing integer keys, -1)`. -/
theorem appendNextGo_eq_claim :
    ∀ els : List (PValue × PValue),
      (∀ e ∈ els, ∀ k, intKeyOf e.1 = some k → -(2 ^ 63) ≤ k ∧ k + 1 < 2 ^ 63) →
      appendNextGo els = claimStartKey els := by
  intro els h
  unfold appendNextGo claimStartKey
  rw [appendNext_fold_max els 0 h]
  rw [show (0 : Int) = (-1) + 1 from by omega]
  exact maxFold_shift els (-1)

/-- As long as the appended keys stay below `2 ^ 63`, the append loop
attaches consecutive unwrapped keys and leaves the prefix untouched. -/
theorem appendElemsGo_eq :
    ∀ (es : List PValue) (ls : List (PValue × PValue)) (start : Int),
      0 ≤ start → start + es.length ≤ 2 ^ 63 →
      appendElemsGo ls start es = ls ++ consecutiveEntries start es := by
  intro es
  induction es with
  | nil => intro ls start _ _; simp [appendElemsGo, consecutiveEntries]
  | cons e rest ih =>
    intro ls start h0 hlen
    cases rest with
    | nil => simp [appendElemsGo, consecutiveEntries]
    | cons e2 rest2 =>
      have hlt : start + 1 < 2 ^ 63 := by
        simp only [List.length_cons] at hlen
        omega
      have hw : wrap64 (start + 1) = start + 1 := wrap64_eq_self _ (by omega) hlt
      show appendElemsGo (ls ++ [(PValue.int start, e)]) (wrap64 (start + 1)) (e2 :: rest2) = _
      rw [hw]
      rw [ih (ls ++ [(PValue.int start, e)]) (start + 1) (by omega) (by
        simp only [List.length_cons] at hlen ⊢
        omega)]
      simp [consecutiveEntries, List.append_assoc]

/-- C1: the round-trip claim — `decode(encode(v))` reproduces every Value,
including Objects whose fields carry Protected/Private tags — fails on the
code for every Object: the encoder emits `O:<n>:"<name>":<count>:{...}`
with field names as full `s:...;` strings, but `readObject` never consumes
the `{`, reads field names without the trailing `;`, and never consumes
the `}`.  Decoding the encoding of the empty object `Foo` parses but then
dies on the unconsumed `{` as trailing data, and decoding the encoding of
an object with one protected field fails inside `readObject` at the `{`. -/
theorem c1_object_roundtrip_fails :
    writeV (.obj (bytes "Foo") []) = bytes "O:3:\"Foo\":0:\x7b\x7d" ∧
    unmarshal (writeV (.obj (bytes "Foo") [])) =
      .ret (some (.obj (bytes "Foo") [])) (some (.trailingToken 123 12)) ∧
    writeV (.obj (bytes "Foo") [(bytes "a", .prot, .null)]) =
      bytes "O:3:\"Foo\":1:\x7bs:2:\"*a\";N;\x7d" ∧
    unmarshal (writeV (.obj (bytes "Foo") [(bytes "a", .prot, .null)])) =
      .ret none (some (.unexpectedTokenAt 123 14)) := ⟨rfl, rfl, rfl, rfl⟩

/-- C2 counterexample: on input `N;x` the decoder fails with the
trailing-data error yet `Unmarshal` returns the parsed Null value — a
non-nil Value alongside a non-nil error — because the panic fires after
the named return `v` was assigned.  This refutes the claim that the Value
is nil whenever the error is non-nil. -/
theorem c2_trailing_data_returns_value_with_error :
    unmarshal (bytes "N;x") = .ret (some PValue.null) (some (.trailingToken 120 2)) ∧
      some PValue.null ≠ (none : Option PValue) := ⟨rfl, by simp⟩

/-- C2 (amended): whenever `Unmarshal` returns a non-nil error, the
returned Value is nil — except for the trailing-data failure, where the
successfully parsed top-level value is returned together with the error. -/
theorem c2_error_implies_nil_value_or_trailing :
    ∀ (data : List Nat) (v : Option PValue) (e : DErr),
      unmarshal data = .ret v (some e) →
      v = none ∨
        ∃ w off, readValue (data.length + 2) data 0 = .ok (w, off) ∧ v = some w ∧
          off < data.length ∧ e = .trailingToken (data.getD off 0) off := by
  intro data v e h
  unfold unmarshal at h
  cases hr : readValue (data.length + 2) data 0 with
  | error f =>
    cases f with
    | err e2 =>
      rw [hr] at h
      simp only [URes.ret.injEq] at h
      left
      exact h.1.symm
    | crash => rw [hr] at h; exact URes.noConfusion h
    | fuelOut => rw [hr] at h; exact URes.noConfusion h
  | ok p =>
    rw [hr] at h
    by_cases hoff : data.length ≤ p.2
    · simp only [hoff, if_true, URes.ret.injEq] at h
      exact absurd h.2 (by simp)
    · simp only [hoff, if_false, URes.ret.injEq] at h
      right
      exact ⟨p.1, p.2, by simp [hr], h.1.symm, by omega, (Option.some.inj h.2).symm⟩

/-- C2 witness: the amended statement applied to the concrete trailing-data
input `N;x`, whose hypothesis is discharged by computation. -/
theorem c2_error_implies_nil_value_or_trailing_witness :
    (some PValue.null = none ∨
      ∃ w off, readValue ((bytes "N;x").length + 2) (bytes "N;x") 0 = .ok (w, off) ∧
        some PValue.null = some w ∧ off < (bytes "N;x").length ∧
        DErr.trailingToken 120 2 = .trailingToken ((bytes "N;x").getD off 0) off) :=
  c2_error_implies_nil_value_or_trailing (bytes "N;x") (some PValue.null)
    (.trailingToken 120 2) rfl

/-- C3 counterexample: an array whose only pair's key is structurally equal
to the queried key (same Int variant, same value 1) — yet `Index` returns
nil because the two keys are distinct allocations, refuting the claim that
lookup is by key equality (same variant and content). -/
theorem c3_index_ignores_structural_key_equality :
    ({ addr := 1, val := PValue.int 1 } : VRef).val =
        ({ addr := 0, val := PValue.int 1 } : VRef).val ∧
      goIndex [(({ addr := 0, val := PValue.int 1 } : VRef), PValue.null)]
        { addr := 1, val := PValue.int 1 } = none := ⟨rfl, rfl⟩

/-- C3 (amended): `Index` returns the value of the first pair whose key is
the very same `*Value` reference (Go pointer identity) as the argument —
none when no pair's key is that identical reference; structurally equal
but distinct allocations do not match. -/
theorem c3_index_first_pointer_identity_match :
    ∀ (els : List (VRef × PValue)) (k : VRef),
      (goIndex els k = none ↔ ∀ e ∈ els, e.1.addr ≠ k.addr) ∧
      (∀ v, goIndex els k = some v →
        ∃ pre e post, els = pre ++ e :: post ∧ e.1.addr = k.addr ∧ e.2 = v ∧
          ∀ e2 ∈ pre, e2.1.addr ≠ k.addr) := by
  intro els k
  induction els with
  | nil => simp [goIndex]
  | cons e rest ih =>
    by_cases he : e.1.addr = k.addr
    · constructor
      · simp [goIndex, he]
      · intro v hv
        simp only [goIndex, he, if_true] at hv
        exact ⟨[], e, rest, by simp, he, Option.some.inj hv, by simp⟩
    · constructor
      · simp only [goIndex, he, if_false]
        rw [ih.1]
        constructor
        · intro h e2 he2
          rcases List.mem_cons.1 he2 with h2 | h2
          · subst h2; exact he
          · exact h e2 h2
        · intro h e2 he2
          exact h e2 (List.mem_cons_of_mem e he2)
      · intro v hv
        simp only [goIndex, he, if_false] at hv
        rcases ih.2 v hv with ⟨pre, e2, post, hsplit, haddr, hval, hpre⟩
        refine ⟨e :: pre, e2, post, by simp [hsplit], haddr, hval, ?_⟩
        intro e3 he3
        rcases List.mem_cons.1 he3 with h3 | h3
        · subst h3; exact he
        · exact hpre e3 h3

/-- C3 witness: the amended statement applied at a singleton array whose
key shares the query's address, with the lookup hypothesis discharged by
computation. -/
theorem c3_index_first_pointer_identity_match_witness :
    ∃ pre e post,
      ([(({ addr := 0, val := PValue.null } : VRef), PValue.bool true)] : List (VRef × PValue)) =
          pre ++ e :: post ∧
        e.1.addr = ({ addr := 0, val := PValue.int 1 } : VRef).addr ∧ e.2 = PValue.bool true ∧
        ∀ e2 ∈ pre, e2.1.addr ≠ ({ addr := 0, val := PValue.int 1 } : VRef).addr :=
  (c3_index_first_pointer_identity_match
    [({ addr := 0, val := PValue.null }, PValue.bool true)]
    { addr := 0, val := PValue.int 1 }).2 (PValue.bool true) rfl

/-- C4: `PrivField` and `ProtectedField` both route to the public-visibility
constructor — for every name and value the produced field is exactly the
`Field name v Public` result and carries Public visibility, so Protected
and Private are unreachable through these two constructors. -/
theorem c4_priv_and_protected_fields_are_public :
    ∀ (name : List Nat) (v : PValue),
      goPrivField name v = goField name v .pub ∧
      goProtectedField name v = goField name v .pub ∧
      (goPrivField name v).2.1 = Visibility.pub ∧
      (goProtectedField name v).2.1 = Visibility.pub :=
  fun _ _ => ⟨rfl, rfl, rfl, rfl⟩

/-- C5: the keys emitted for a generic associative mapping are pairwise in
the claimed order (coercible keys numerically ascending and before
non-coercible ones, non-coercible keys by byte-lexicographic rendering),
and encoding the claim's concrete mapping — in either association order —
produces exactly the claimed bytes. -/
theorem c5_map_keys_sorted_and_example_bytes :
    (∀ ks : List MKey, (sortKeys ks).Pairwise keyOrdered) ∧
      writeMap mapExample =
        bytes "a:5:\x7bi:0;i:1;i:3;i:3;i:11;i:4;s:1:\"a\";i:0;s:2:\"bb\";i:2;\x7d" ∧
      writeMap mapExample.reverse =
        bytes "a:5:\x7bi:0;i:1;i:3;i:3;i:11;i:4;s:1:\"a\";i:0;s:2:\"bb\";i:2;\x7d" := by
  refine ⟨fun ks => ?_, by decide, by decide⟩
  exact (List.sorted_insertionSort keyLe ks).imp fun h => keyOrdered_of_keyLe _ _ h

/-- C6 counterexample: a typed Array with the non-sequential integer keys
3 then 1 is encoded in its stored order `i:3;...i:1;...`, which differs
from the map-key sorted order `i:1;...i:3;...` the claim asserts. -/
theorem c6_array_not_sorted_counterexample :
    writeV (.array [(.int 3, .null), (.int 1, .null)]) = bytes "a:2:\x7bi:3;N;i:1;N;\x7d" ∧
      bytes "a:2:\x7bi:3;N;i:1;N;\x7d" ≠ bytes "a:2:\x7bi:1;N;i:3;N;\x7d" := ⟨rfl, by decide⟩

/-- C6 (amended): the encoder always emits a typed Array's key/value pairs
in the Array's stored insertion order — it never sorts them; the map-key
sort applies only to generic host maps. -/
theorem c6_array_encodes_in_stored_order :
    ∀ els : List (PValue × PValue),
      writeV (.array els) =
        bytes "a:" ++ natDigits els.length ++ bytes ":\x7b" ++
          (els.map fun e => writeV e.1 ++ writeV e.2).flatten ++ bytes "\x7d" := by
  intro els
  simp [writeV, writeElems_eq_flatten]

/-- C7 counterexample: appending to an array whose existing integer key is
`2^63 - 1` starts at the wrapped key `-2^63`, not at the claimed
`1 + max(existing integer keys, -1) = 2^63`, because `Append` computes the
next key in Go's wrapping 64-bit signed arithmetic. -/
theorem c7_append_key_overflow_counterexample :
    goAppend (.array [(.int (2 ^ 63 - 1), .null)]) [.null] =
      .ok (.array [(.int (2 ^ 63 - 1), .null), (.int (-(2 ^ 63)), .null)]) ∧
      (-(2 ^ 63) : Int) ≠ 1 + max (2 ^ 63 - 1) (-1) := ⟨rfl, by decide⟩

/-- C7 (amended): `Append` computes its keys in wrapping 64-bit signed
arithmetic; whenever every existing integer key `k` satisfies
`-2^63 ≤ k` and `k + 1 < 2^63` and the appended keys stay within range,
the starting key is exactly `1 + max(existing integer keys, -1)`, the
appended values receive consecutive integer keys from there, and every
existing entry is unchanged in content and order. -/
theorem c7_append_consecutive_from_claimed_start :
    ∀ (els : List (PValue × PValue)) (es : List PValue),
      (∀ e ∈ els, ∀ k, intKeyOf e.1 = some k → -(2 ^ 63) ≤ k ∧ k + 1 < 2 ^ 63) →
      claimStartKey els + es.length ≤ 2 ^ 63 →
      goAppend (.array els) es =
        .ok (.array (els ++ consecutiveEntries (claimStartKey els) es)) := by
  intro els es h1 h2
  unfold goAppend valueArray
  simp only []
  rw [appendNextGo_eq_claim els h1]
  have h0 : 0 ≤ claimStartKey els := by
    unfold claimStartKey
    have := maxFold_ge els (-1)
    omega
  rw [appendElemsGo_eq es els (claimStartKey els) h0 h2]

/-- C7 witness: appending two values to an array with integer key 5 yields
the new keys 6 and 7, by the amended statement with both bounds discharged
at the concrete input. -/
theorem c7_append_consecutive_from_claimed_start_witness :
    goAppend (.array [(.int 5, .null)]) [.null, .bool true] =
      .ok (.array [(.int 5, .null), (.int 6, .null), (.int 7, .bool true)]) := by
  have h := c7_append_consecutive_from_claimed_start [(.int 5, .null)] [.null, .bool true]
    (by
      intro e he k hk
      rw [List.mem_singleton] at he
      subst he
      simp [intKeyOf, Option.some.injEq] at hk
      omega)
    (by decide)
  exact h

/-- C8: every typed accessor invoked on a mismatched variant fails with the
`ValueError` naming that accessor and the value's actual type, while the
string-rendering accessor never fails: it returns the raw content of a
String and the fixed `<TypeName value>` placeholder on every other
variant. -/
theorem c8_typed_accessor_contract :
    ∀ v : PValue,
      (v.type ≠ .tBool → valueBool v = .error ⟨bytes "php.Value.Bool", v.type⟩) ∧
      (v.type ≠ .tInt → valueInt v = .error ⟨bytes "php.Value.Int", v.type⟩) ∧
      (v.type ≠ .tFloat → valueFloat v = .error ⟨bytes "php.Value.Float", v.type⟩) ∧
      (v.type ≠ .tArray → valueArray v = .error ⟨bytes "php.Value.Array", v.type⟩) ∧
      (v.type ≠ .tObject → valueObject v = .error ⟨bytes "php.Value.Object", v.type⟩) ∧
      (∀ s, v = .str s → valueString v = s) ∧
      (v.type ≠ .tString → valueString v = bytes "<" ++ typeName v.type ++ bytes " value>") := by
  intro v
  cases v <;>
    simp [valueBool, valueInt, valueFloat, valueArray, valueObject, valueString, PValue.type]

/-- C8 witness: the contract applied to the Null value — `Bool` fails
naming itself and the null type, and the string rendering produces the
`<null value>` placeholder. -/
theorem c8_typed_accessor_contract_witness :
    valueBool PValue.null = .error ⟨bytes "php.Value.Bool", PType.tNull⟩ ∧
      valueString PValue.null = bytes "<null value>" :=
  ⟨(c8_typed_accessor_contract PValue.null).1 (by decide),
    (c8_typed_accessor_contract PValue.null).2.2.2.2.2.2 (by decide)⟩

/-- C9 counterexample: the malformed bool body `b:2;` aborts the decode
with the cannot-convert-bool error, whose report carries the offending
bytes but no byte offset — refuting the claim that every failure report
includes the offset at which it was detected. -/
theorem c9_bool_error_lacks_offset :
    unmarshal (bytes "b:2;") = .ret none (some (.cannotConvertBool (bytes "2"))) ∧
      DErr.hasOffset (.cannotConvertBool (bytes "2")) = false := ⟨rfl, rfl⟩

/-- C9 (amended): only the expected-literal mismatch, unknown leading
token, delimiter-scan and string-body end-of-input, and trailing-data
reports include a byte offset; the fixed-literal end-of-input report and
the malformed-int, malformed-float, disallowed-array-key and
malformed-private-field-marker reports (like the malformed-bool one)
carry the offending bytes or type but no offset — each shown on a
concrete failing input, together with the offset classification of every
error constructor. -/
theorem c9_offset_only_in_token_and_eof_errors :
    unmarshal (bytes "i:x;") = .ret none (some (.cannotConvertInt (bytes "x"))) ∧
    DErr.hasOffset (.cannotConvertInt (bytes "x")) = false ∧
    unmarshal (bytes "d:z;") = .ret none (some (.cannotConvertFloat (bytes "z"))) ∧
    DErr.hasOffset (.cannotConvertFloat (bytes "z")) = false ∧
    unmarshal (bytes "a:1:\x7bN;N;\x7d") = .ret none (some (.invalidArrayKeyType .tNull)) ∧
    DErr.hasOffset (.invalidArrayKeyType .tNull) = false ∧
    unmarshal (bytes "O:1:\"F\":1:s:2:\"\x00a\";N;") =
      .ret none (some (.invalidFieldName [0, 97])) ∧
    DErr.hasOffset (.invalidFieldName [0, 97]) = false ∧
    unmarshal (bytes "N") = .ret none (some .cannotReadByte) ∧
    DErr.hasOffset .cannotReadByte = false ∧
    unmarshal (bytes "x") = .ret none (some (.unexpectedValueToken 120 0)) ∧
    DErr.hasOffset (.unexpectedValueToken 120 0) = true ∧
    unmarshal (bytes "") = .ret none (some (.eofValueType 0)) ∧
    DErr.hasOffset (.eofValueType 0) = true ∧
    (∀ e : DErr, e.hasOffset = false ↔
      (e = .cannotReadByte ∨ (∃ bs, e = .cannotConvertBool bs) ∨
        (∃ bs, e = .cannotConvertInt bs) ∨ (∃ bs, e = .cannotConvertFloat bs) ∨
        (∃ t, e = .invalidArrayKeyType t) ∨ (∃ n, e = .invalidFieldName n))) := by
  refine ⟨rfl, rfl, rfl, rfl, rfl, rfl, rfl, rfl, rfl, rfl, rfl, rfl, rfl, rfl, ?_⟩
  intro e
  cases e <;> simp [DErr.hasOffset]

/-- C10: a nil `*php.Value` and the Null variant are both accepted by the
encoder's `IsNil` check and encode to exactly the bytes `N;` with no
error or crash. -/
theorem c10_nil_value_encodes_null :
    writePHPValueOpt none = bytes "N;" ∧ writePHPValueOpt (some .null) = bytes "N;" ∧
      isNilV none = true ∧ isNilV (some .null) = true := ⟨rfl, rfl, rfl, rfl⟩
